import Mathlib

/-!
Verification of the pdf-comprs backend services against their specification.

The definitions below are a shallow embedding of the Python sources:
  - src/backend/src/services/pdf_compressor.py   (PDFCompressor.compress_to_target_size)
  - src/backend/src/services/file_manager.py     (FileManager.update_job, cleanup_old_jobs)
  - src/backend/src/services/image_converter.py  (ImageConverter.convert_images_to_pdf)
  - src/backend/src/api/compression.py           (sanitize_filename)

File sizes are modelled as rationals, the filesystem and the external
Ghostscript invocations as an explicit environment record, and Python
float division as a fallible operation that raises ZeroDivisionError on a
zero divisor, exactly as CPython does.
-/

namespace PdfComprs

/-- A ladder entry: the (dpi, quality, description) triple of one
progressive compression configuration. -/
abbrev Entry := Nat × Nat × String

/-- Mirror of the CompressionResult dataclass in pdf_compressor.py. -/
structure CompressionResult where
  success : Bool
  initial_size_mb : ℚ
  final_size_mb : ℚ
  reduction_percent : ℚ
  output_path : Option String := none
  config_used : Option Entry := none
  target_reached : Bool := false
  error : Option String := none
deriving Repr, DecidableEq

/-- Environment of one compress_to_target_size run: whether the input file
exists and its measured size, whether a stale file already sits at the
output path (and its size), and the outcome of the i-th Ghostscript
invocation: none models a failed subprocess run (which leaves the output
path untouched), some sz a successful run whose written output measures
sz megabytes. -/
structure CompressEnv where
  inputExists : Bool
  inputSizeMB : ℚ
  outputPreexists : Bool
  preexistingSizeMB : ℚ
  invoke : Nat → Option ℚ

/-- Python float division: raises ZeroDivisionError on a zero divisor. -/
def pyDiv (a b : ℚ) : Except String ℚ :=
  if b = 0 then Except.error "ZeroDivisionError" else Except.ok (a / b)

/-- The hard-coded fallback ladder of pdf_compressor.py, used when the
configuration supplies no progressive_configs. -/
def defaultConfigs : List Entry :=
  [ (150, 80, "High quality"),
    (120, 70, "Good quality"),
    (96, 60, "Medium quality"),
    (72, 50, "Low quality"),
    (50, 40, "Very low quality"),
    (36, 30, "Minimal quality"),
    (30, 25, "Super compressed"),
    (24, 20, "Heavy compression"),
    (20, 15, "Maximum compression"),
    (15, 10, "Extreme compression"),
    (10, 5, "Ultra compression") ]

/-- The ladder actually walked: the configured entries, or the hard-coded
fallback when the configuration supplies none. -/
def laddersOf (progressive_configs : List Entry) : List Entry :=
  if progressive_configs.isEmpty then defaultConfigs else progressive_configs

/-- The post-loop outcome of compress_to_target_size (lines 233-260): if a
file exists at the output path, report success with the guarded reduction
computation; otherwise report the "Failed to compress PDF" failure.
best is the best_config accumulator, outSize the size written by the last
successful attempt (none when every attempt failed). -/
def finalResult (env : CompressEnv) (output_file : String) (target_size_mb initial : ℚ)
    (best : Option Entry) (outSize : Option ℚ) : CompressionResult :=
  if env.outputPreexists || outSize.isSome then
    let final := outSize.getD env.preexistingSizeMB
    { success := true,
      initial_size_mb := initial,
      final_size_mb := final,
      reduction_percent := if initial > 0 then ((initial - final) / initial) * 100 else 0,
      output_path := some output_file,
      config_used := best,
      target_reached := decide (final ≤ target_size_mb) }
  else
    { success := false,
      initial_size_mb := initial,
      final_size_mb := 0,
      reduction_percent := 0,
      error := some "Failed to compress PDF" }

/-- The attempt loop of compress_to_target_size (lines 207-231).  i is the
index of the next attempt, best the best_config accumulator, outSize the
size written by the most recent successful attempt.  A failed invocation
is logged and skipped; a successful one whose output meets the target
returns immediately (its reduction computed by an unguarded float
division); otherwise the entry is remembered as best_config and the loop
continues. -/
def compressLoop (env : CompressEnv) (output_file : String) (target_size_mb initial : ℚ) :
    List Entry → Nat → Option Entry → Option ℚ → Except String CompressionResult
  | [], _, best, outSize => Except.ok (finalResult env output_file target_size_mb initial best outSize)
  | (dpi, quality, desc) :: rest, i, best, outSize =>
    match env.invoke i with
    | none => compressLoop env output_file target_size_mb initial rest (i + 1) best outSize
    | some output_size =>
      if output_size ≤ target_size_mb then
        match pyDiv (initial - output_size) initial with
        | Except.error e => Except.error e
        | Except.ok q =>
          Except.ok
            { success := true,
              initial_size_mb := initial,
              final_size_mb := output_size,
              reduction_percent := q * 100,
              output_path := some output_file,
              config_used := some (dpi, quality, desc),
              target_reached := true }
      else
        compressLoop env output_file target_size_mb initial rest (i + 1)
          (some (dpi, quality, desc)) (some output_size)

/-- Shallow embedding of PDFCompressor.compress_to_target_size
(pdf_compressor.py lines 152-260). -/
def compress_to_target_size (env : CompressEnv) (input_file output_file : String)
    (target_size_mb : ℚ) (progressive_configs : List Entry) (max_attempts : Nat) :
    Except String CompressionResult :=
  if !env.inputExists then
    Except.ok
      { success := false,
        initial_size_mb := 0,
        final_size_mb := 0,
        reduction_percent := 0,
        error := some ("Input file not found: " ++ input_file) }
  else
    compressLoop env output_file target_size_mb env.inputSizeMB
      ((laddersOf progressive_configs).take max_attempts) 0 none none

/-- Proof helper: the pure evolution of the (best_config, output-on-disk)
accumulator pair along the attempt loop. -/
def walk (env : CompressEnv) : List Entry → Nat → Option Entry → Option ℚ → Option Entry × Option ℚ
  | [], _, best, outSize => (best, outSize)
  | e :: rest, i, best, outSize =>
    match env.invoke i with
    | none => walk env rest (i + 1) best outSize
    | some sz => walk env rest (i + 1) (some e) (some sz)

/-- The run used to exhibit the unguarded division on the early-stop path:
the input file exists but is empty (size 0 MB), and the first Ghostscript
attempt succeeds with an output of 0 MB, which meets the target. -/
def zeroInitialEnv : CompressEnv :=
  { inputExists := true,
    inputSizeMB := 0,
    outputPreexists := false,
    preexistingSizeMB := 0,
    invoke := fun _ => some 0 }

/-- Witness environment for the early-stop claim: the stub invoker of the
specification, yielding output sizes 9, 7, 4, 2 MB. -/
def ladder9742Env : CompressEnv :=
  { inputExists := true,
    inputSizeMB := 20,
    outputPreexists := false,
    preexistingSizeMB := 0,
    invoke := fun i =>
      if i = 0 then some 9 else if i = 1 then some 7 else if i = 2 then some 4 else some 2 }

/-- Witness environment for the exhaustion claim: every attempt succeeds
but the output never drops below 10 MB. -/
def stuck10Env : CompressEnv :=
  { inputExists := true,
    inputSizeMB := 20,
    outputPreexists := false,
    preexistingSizeMB := 0,
    invoke := fun _ => some 10 }

/-- Witness environment for the failure-propagation claim: every
Ghostscript invocation fails. -/
def allFailEnv : CompressEnv :=
  { inputExists := true,
    inputSizeMB := 20,
    outputPreexists := false,
    preexistingSizeMB := 0,
    invoke := fun _ => none }

/-- Witness environment for the missing-input claim. -/
def missingInputEnv : CompressEnv :=
  { inputExists := false,
    inputSizeMB := 0,
    outputPreexists := false,
    preexistingSizeMB := 0,
    invoke := fun _ => none }

/-! ## Job store (file_manager.py) -/

/-- Mirror of the JobInfo dataclass in file_manager.py; timestamps are
modelled as rationals. -/
structure JobInfo where
  job_id : String
  created_at : ℚ
  temp_dir : String
  output_file : Option String := none
  status : String := "pending"
  progress : Int := 0
  message : String := ""
  original_filename : String := ""
deriving Repr, DecidableEq

/-- The in-memory job registry, a dict from job id to record (unique keys). -/
abbrev JobStore := List (String × JobInfo)

/-- The field assignments performed by FileManager.update_job on a found
job (lines 92-99): each provided optional field overwrites that field of
the record, each omitted one leaves it unchanged. -/
def applyUpdate (job : JobInfo) (status : Option String) (progress : Option Int)
    (message : Option String) (output_file : Option String) : JobInfo :=
  { job with
    status := status.getD job.status,
    progress := progress.getD job.progress,
    message := message.getD job.message,
    output_file := match output_file with | some o => some o | none => job.output_file }

/-- Shallow embedding of FileManager.update_job (file_manager.py lines
80-101): look up the job, assign the provided fields, return the updated
record, or return none leaving the store unchanged when the id is
unknown. -/
def update_job (jobs : JobStore) (job_id : String) (status : Option String)
    (progress : Option Int) (message : Option String) (output_file : Option String) :
    JobStore × Option JobInfo :=
  match jobs.lookup job_id with
  | none => (jobs, none)
  | some job =>
    let j := applyUpdate job status progress message output_file
    (jobs.map (fun p => if p.1 = job_id then (p.1, j) else p), some j)

/-- Shallow embedding of FileManager.cleanup_job (lines 123-129): pops the
record from the registry (removal of the working directory on disk is not
modelled). -/
def cleanup_job (jobs : JobStore) (job_id : String) : JobStore :=
  jobs.filter (fun p => !(p.1 == job_id))

/-- Shallow embedding of FileManager.cleanup_old_jobs (lines 131-154):
when cleanup is enabled, collect the ids of the jobs created strictly
before now minus the configured maximum age, pop each collected id, and
return how many were popped. -/
def cleanup_old_jobs (enabled : Bool) (now max_age : ℚ) (jobs : JobStore) : JobStore × Nat :=
  if !enabled then (jobs, 0)
  else
    let cutoff := now - max_age
    let jobs_to_clean :=
      (jobs.filter (fun p => decide (p.2.created_at < cutoff))).map Prod.fst
    (jobs_to_clean.foldl cleanup_job jobs, jobs_to_clean.length)

/-- One update_job call packaged as data: the target id and the four
optional fields of the call. -/
structure UpdateArgs where
  job_id : String
  status : Option String := none
  progress : Option Int := none
  message : Option String := none
  output_file : Option String := none

/-- Folding a sequence of update_job calls over the store. -/
def applyUpdates (jobs : JobStore) : List UpdateArgs → JobStore
  | [] => jobs
  | u :: us =>
    applyUpdates (update_job jobs u.job_id u.status u.progress u.message u.output_file).1 us

/-- The forward status discipline of the specification: a status may stay
put, move pending to processing to completed, or fail from any state;
failed and completed never move back to an earlier status. -/
def stepAllowed (a b : String) : Prop :=
  a = b ∨ b = "failed" ∨
    (a = "pending" ∧ (b = "processing" ∨ b = "completed")) ∨
    (a = "processing" ∧ b = "completed")

/-- A sequence of update calls is disciplined when each call, evaluated
against the store state it actually meets, only supplies an allowed next
status and, while the job stays processing, a progress not below the
current one. -/
def disciplined : JobStore → List UpdateArgs → Prop
  | _, [] => True
  | jobs, u :: us =>
    (∀ job, jobs.lookup u.job_id = some job →
      (∀ s, u.status = some s → stepAllowed job.status s) ∧
      (∀ p, u.progress = some p → job.status = "processing" →
        u.status.getD job.status = "processing" → job.progress ≤ p)) ∧
    disciplined (update_job jobs u.job_id u.status u.progress u.message u.output_file).1 us

/-- A freshly created pending job, used in the update_job witness. -/
def seedJob : JobInfo :=
  { job_id := "j", created_at := 0, temp_dir := "/tmp/j" }

/-- A job record that has already completed, used in the status-regression
counterexample. -/
def completedJob : JobInfo :=
  { job_id := "c", created_at := 0, temp_dir := "/tmp/c", status := "completed", progress := 100 }

/-- A job record in flight, used in the progress-regression counterexample. -/
def processingJob : JobInfo :=
  { job_id := "p", created_at := 0, temp_dir := "/tmp/p", status := "processing", progress := 50 }

/-- A freshly created pending job, used in the disciplined-sequence witness. -/
def pendingJob : JobInfo :=
  { job_id := "w", created_at := 0, temp_dir := "/tmp/w" }

/-- A disciplined sequence of update calls: start processing, report
progress, then complete. -/
def demoUpdates : List UpdateArgs :=
  [ { job_id := "w", status := some "processing", progress := some 10 },
    { job_id := "w", progress := some 60, message := some "more" },
    { job_id := "w", status := some "completed", progress := some 100 } ]

/-- The record produced by folding demoUpdates over the one-job store. -/
def demoFinalJob : JobInfo :=
  { job_id := "w", created_at := 0, temp_dir := "/tmp/w",
    status := "completed", progress := 100, message := "more" }

/-- A three-job store exercising the eviction age boundary: jobs created
at times 0, 5 and -1, swept at now = 10 with a maximum age of 10, so the
cutoff is 0 and only the job created at -1 is strictly older. -/
def cleanupDemoStore : JobStore :=
  [ ("a", { job_id := "a", created_at := 0, temp_dir := "/tmp/a" }),
    ("b", { job_id := "b", created_at := 5, temp_dir := "/tmp/b" }),
    ("c", { job_id := "c", created_at := -1, temp_dir := "/tmp/c" }) ]

/-! ## Image to PDF conversion (image_converter.py) and filename sanitisation -/

/-- Mirror of the ConversionResult dataclass in image_converter.py. -/
structure ConversionResult where
  success : Bool
  page_count : Nat := 0
  output_path : Option String := none
  size_mb : ℚ := 0
  error : Option String := none
deriving Repr, DecidableEq

/-- One input item of convert_images_to_pdf as the filesystem and the
imaging libraries see it: its path, whether a file is present at that
path, its lowercased extension, and whether the PyMuPDF and Pillow
conversion strategies succeed on it. -/
structure ImgItem where
  path : String
  found : Bool
  ext : String
  fitzOk : Bool
  pilOk : Bool
deriving Repr, DecidableEq

/-- The SUPPORTED_FORMATS set of ImageConverter. -/
def SUPPORTED_FORMATS : List String :=
  [".png", ".jpg", ".jpeg", ".bmp", ".tiff", ".tif", ".webp"]

/-- ImageConverter.is_supported_format applied to the lowercased
extension. -/
def is_supported_format (ext : String) : Bool := SUPPORTED_FORMATS.contains ext

/-- os.path.basename for POSIX paths: the part after the last slash. -/
def basename (s : String) : String := (s.splitOn "/").getLastD ""

/-- The validity filter of convert_images_to_pdf (lines 119-127): the
path is truthy, a file is present there, and the format is supported;
items failing this are logged and skipped. -/
def validItem (p : ImgItem) : Bool :=
  !(p.path == "") && p.found && is_supported_format p.ext

/-- Shallow embedding of ImageConverter.convert_images_to_pdf
(image_converter.py lines 96-177).  outSize is the size the saved PDF
measures.  Returns the ConversionResult and whether an output artifact
was written at the output path. -/
def convert_images_to_pdf (outSize : ℚ) (image_paths : List ImgItem) (output_pdf : String) :
    ConversionResult × Bool :=
  if image_paths.isEmpty then
    ({ success := false, error := some "No images provided" }, false)
  else
    let valid_images := image_paths.filter validItem
    if valid_images.isEmpty then
      ({ success := false, error := some "No valid image files found" }, false)
    else
      match valid_images.find? (fun p => !p.fitzOk && !p.pilOk) with
      | some p =>
        ({ success := false,
           error := some ("Failed to process image: " ++ basename p.path) }, false)
      | none =>
        ({ success := true, page_count := valid_images.length,
           output_path := some output_pdf, size_mb := outSize }, true)

/-- A missing input item: no file is present at its path. -/
def missingItem : ImgItem :=
  { path := "dir/a.png", found := false, ext := ".png", fitzOk := true, pilOk := true }

/-- A healthy input item both strategies can convert. -/
def goodItem : ImgItem :=
  { path := "dir/b.jpg", found := true, ext := ".jpg", fitzOk := true, pilOk := true }

/-- A present, supported input item that defeats both conversion
strategies. -/
def corruptItem : ImgItem :=
  { path := "dir/c.png", found := true, ext := ".png", fitzOk := false, pilOk := false }

/-- Python str.strip with no argument: drop whitespace from both ends. -/
def stripEnds (l : List Char) : List Char :=
  ((l.dropWhile Char.isWhitespace).reverse.dropWhile Char.isWhitespace).reverse

/-- The while loop of sanitize_filename removing leading dots. -/
def dropLeadingDots : List Char → List Char
  | '.' :: rest => dropLeadingDots rest
  | l => l

/-- The character filter of sanitize_filename: keep a character when the
host str.isalnum accepts it or it is a space, dash or underscore. -/
def keepChar (alnum : Char → Bool) (c : Char) : Bool :=
  alnum c || c == ' ' || c == '-' || c == '_'

/-- Shallow embedding of sanitize_filename (compression.py lines 32-43)
over the characters of the input, parameterised by the host Python
str.isalnum predicate: remove path separators and null bytes, strip
leading dots, keep only alphanumerics, spaces, dashes and underscores,
strip surrounding whitespace, and fall back to "output" when nothing
remains. -/
def sanitize_filename (alnum : Char → Bool) (filename : List Char) : List Char :=
  let noSep := ((filename.filter (fun c => !(c == '/'))).filter
      (fun c => !(c == '\\'))).filter (fun c => !(c == Char.ofNat 0))
  let noDots := dropLeadingDots noSep
  let sanitized := stripEnds (noDots.filter (keepChar alnum))
  if sanitized.isEmpty then "output".toList else sanitized

/-! ## Lemmas about the compression search loop -/

theorem loop_eq_final_of_no_early (env : CompressEnv) (out : String) (target init : ℚ)
    (entries : List Entry) (i : Nat) (best : Option Entry) (outSize : Option ℚ)
    (h : ∀ k, k < entries.length → ∀ s, env.invoke (i + k) = some s → ¬ s ≤ target) :
    compressLoop env out target init entries i best outSize =
      Except.ok (finalResult env out target init
        (walk env entries i best outSize).1 (walk env entries i best outSize).2) := by
  induction entries generalizing i best outSize with
  | nil => simp [compressLoop, walk]
  | cons e rest ih =>
    obtain ⟨dpi, quality, desc⟩ := e
    have hshift : ∀ k, k < rest.length → ∀ s, env.invoke (i + 1 + k) = some s → ¬ s ≤ target := by
      intro k hk s hs
      have e1 : i + (k + 1) = i + 1 + k := by omega
      exact h (k + 1) (by simp; omega) s (by rw [e1]; exact hs)
    cases hinv : env.invoke i with
    | none =>
      simp only [compressLoop, walk, hinv]
      exact ih (i + 1) best outSize hshift
    | some sz =>
      have hns : ¬ sz ≤ target := h 0 (by simp) sz (by simpa using hinv)
      simp only [compressLoop, walk, hinv, if_neg hns]
      exact ih (i + 1) (some (dpi, quality, desc)) (some sz) hshift

theorem walk_all_none (env : CompressEnv) (entries : List Entry) (i : Nat)
    (best : Option Entry) (outSize : Option ℚ)
    (h : ∀ k, k < entries.length → env.invoke (i + k) = none) :
    walk env entries i best outSize = (best, outSize) := by
  induction entries generalizing i best outSize with
  | nil => simp [walk]
  | cons e rest ih =>
    have h0 : env.invoke i = none := by simpa using h 0 (by simp)
    simp only [walk, h0]
    exact ih (i + 1) best outSize (by
      intro k hk
      have e1 : i + (k + 1) = i + 1 + k := by omega
      have := h (k + 1) (by simp; omega)
      rw [e1] at this
      exact this)

theorem walk_last (env : CompressEnv) (entries : List Entry) (i j : Nat) (sz : ℚ)
    (best : Option Entry) (outSize : Option ℚ)
    (hj : j < entries.length)
    (hs : env.invoke (i + j) = some sz)
    (hafter : ∀ k, j < k → k < entries.length → env.invoke (i + k) = none) :
    walk env entries i best outSize = (some (entries.get ⟨j, hj⟩), some sz) := by
  induction entries generalizing i j best outSize with
  | nil => simp at hj
  | cons e rest ih =>
    cases j with
    | zero =>
      have h0 : env.invoke i = some sz := by simpa using hs
      simp only [walk, h0]
      refine walk_all_none env rest (i + 1) _ _ ?_
      intro k hk
      have e1 : i + (k + 1) = i + 1 + k := by omega
      have := hafter (k + 1) (by omega) (by simp; omega)
      rw [e1] at this
      exact this
    | succ j' =>
      have hs' : env.invoke (i + 1 + j') = some sz := by
        have e1 : i + (j' + 1) = i + 1 + j' := by omega
        rw [e1] at hs; exact hs
      have hafter' : ∀ k, j' < k → k < rest.length → env.invoke (i + 1 + k) = none := by
        intro k hk1 hk2
        have e1 : i + (k + 1) = i + 1 + k := by omega
        have := hafter (k + 1) (by omega) (by simp; omega)
        rw [e1] at this
        exact this
      have hj' : j' < rest.length := by simp at hj; omega
      cases hinv : env.invoke i with
      | none =>
        simp only [walk, hinv]
        simpa using ih (i + 1) j' best outSize hj' hs' hafter'
      | some s =>
        obtain ⟨dpi, quality, desc⟩ := e
        simp only [walk, hinv]
        simpa using ih (i + 1) j' (some (dpi, quality, desc)) (some s) hj' hs' hafter'

theorem loop_early_stop (env : CompressEnv) (out : String) (target init : ℚ)
    (entries : List Entry) (i j : Nat) (sz : ℚ) (best : Option Entry) (outSize : Option ℚ)
    (hj : j < entries.length)
    (hinit : init ≠ 0)
    (hs : env.invoke (i + j) = some sz)
    (hle : sz ≤ target)
    (hbefore : ∀ k, k < j → ∀ s, env.invoke (i + k) = some s → ¬ s ≤ target) :
    compressLoop env out target init entries i best outSize =
      Except.ok
        { success := true,
          initial_size_mb := init,
          final_size_mb := sz,
          reduction_percent := ((init - sz) / init) * 100,
          output_path := some out,
          config_used := some (entries.get ⟨j, hj⟩),
          target_reached := true } := by
  induction entries generalizing i j best outSize with
  | nil => simp at hj
  | cons e rest ih =>
    obtain ⟨dpi, quality, desc⟩ := e
    cases j with
    | zero =>
      have h0 : env.invoke i = some sz := by simpa using hs
      simp only [compressLoop, h0, if_pos hle, pyDiv, if_neg hinit]
      rfl
    | succ j' =>
      have hs' : env.invoke (i + 1 + j') = some sz := by
        have e1 : i + (j' + 1) = i + 1 + j' := by omega
        rw [e1] at hs; exact hs
      have hbefore' : ∀ k, k < j' → ∀ s, env.invoke (i + 1 + k) = some s → ¬ s ≤ target := by
        intro k hk s hsk
        have e1 : i + (k + 1) = i + 1 + k := by omega
        exact hbefore (k + 1) (by omega) s (by rw [e1]; exact hsk)
      have hj' : j' < rest.length := by simp at hj; omega
      cases hinv : env.invoke i with
      | none =>
        simp only [compressLoop, hinv]
        simpa using ih (i + 1) j' best outSize hj' hs' hbefore'
      | some s =>
        have hns : ¬ s ≤ target := hbefore 0 (by omega) s (by simpa using hinv)
        simp only [compressLoop, hinv, if_neg hns]
        simpa using ih (i + 1) j' (some (dpi, quality, desc)) (some s) hj' hs' hbefore'

theorem loop_success_of_outSize_some (env : CompressEnv) (out : String) (target init : ℚ)
    (entries : List Entry) (i : Nat) (best : Option Entry) (sz0 : ℚ) (r : CompressionResult)
    (h : compressLoop env out target init entries i best (some sz0) = Except.ok r) :
    r.success = true := by
  induction entries generalizing i best sz0 with
  | nil =>
    simp only [compressLoop, finalResult, Option.isSome_some, Bool.or_true, if_true,
      Except.ok.injEq] at h
    rw [← h]
  | cons e rest ih =>
    obtain ⟨dpi, quality, desc⟩ := e
    cases hinv : env.invoke i with
    | none =>
      simp only [compressLoop, hinv] at h
      exact ih (i + 1) best sz0 h
    | some s =>
      simp only [compressLoop, hinv] at h
      by_cases hle : s ≤ target
      · rw [if_pos hle] at h
        cases hq : pyDiv (init - s) init with
        | error e => rw [hq] at h; simp at h
        | ok q =>
          rw [hq] at h
          simp only [Except.ok.injEq] at h
          rw [← h]
      · rw [if_neg hle] at h
        exact ih (i + 1) (some (dpi, quality, desc)) s h

theorem loop_success_of_invoke_some (env : CompressEnv) (out : String) (target init : ℚ)
    (entries : List Entry) (i j : Nat) (sz : ℚ) (best : Option Entry) (outSize : Option ℚ)
    (r : CompressionResult)
    (hj : j < entries.length)
    (hs : env.invoke (i + j) = some sz)
    (h : compressLoop env out target init entries i best outSize = Except.ok r) :
    r.success = true := by
  induction entries generalizing i j best outSize with
  | nil => simp at hj
  | cons e rest ih =>
    obtain ⟨dpi, quality, desc⟩ := e
    cases hinv : env.invoke i with
    | none =>
      simp only [compressLoop, hinv] at h
      cases j with
      | zero => rw [show i + 0 = i by omega, hinv] at hs; simp at hs
      | succ j' =>
        have hs' : env.invoke (i + 1 + j') = some sz := by
          rw [show i + 1 + j' = i + (j' + 1) by omega]; exact hs
        exact ih (i + 1) j' best outSize (by simp at hj; omega) hs' h
    | some s =>
      simp only [compressLoop, hinv] at h
      by_cases hle : s ≤ target
      · rw [if_pos hle] at h
        cases hq : pyDiv (init - s) init with
        | error e => rw [hq] at h; simp at h
        | ok q =>
          rw [hq] at h
          simp only [Except.ok.injEq] at h
          rw [← h]
      · rw [if_neg hle] at h
        exact loop_success_of_outSize_some env out target init rest (i + 1)
          (some (dpi, quality, desc)) s r h

/-! ## Claim theorems for the compression search engine -/

/-- C1: for every ladder walked by compress_to_target_size, at the first
ladder entry (in order) whose successful invocation yields an output size
at most target_size_mb, the search returns immediately a result with
success = true, target_reached = true, config_used equal to that entry,
final_size_mb equal to that attempt measured output size, and no later
ladder entry is attempted (the run is insensitive to the invoker beyond
that entry). -/
theorem compress_early_stop_first_qualifying
    (env : CompressEnv) (input_file output_file : String) (target : ℚ)
    (configs : List Entry) (ma j : Nat) (sz : ℚ)
    (hin : env.inputExists = true)
    (hinit : env.inputSizeMB ≠ 0)
    (hj : j < ((laddersOf configs).take ma).length)
    (hs : env.invoke j = some sz)
    (hle : sz ≤ target)
    (hbefore : ∀ k, k < j → ∀ s, env.invoke k = some s → ¬ s ≤ target) :
    compress_to_target_size env input_file output_file target configs ma =
      Except.ok
        { success := true,
          initial_size_mb := env.inputSizeMB,
          final_size_mb := sz,
          reduction_percent := ((env.inputSizeMB - sz) / env.inputSizeMB) * 100,
          output_path := some output_file,
          config_used := some (((laddersOf configs).take ma).get ⟨j, hj⟩),
          target_reached := true }
    ∧ ∀ env' : CompressEnv, env'.inputExists = true →
        env'.inputSizeMB = env.inputSizeMB →
        (∀ k, k ≤ j → env'.invoke k = env.invoke k) →
        compress_to_target_size env' input_file output_file target configs ma =
          compress_to_target_size env input_file output_file target configs ma := by
  have key : ∀ env2 : CompressEnv, env2.inputExists = true →
      env2.inputSizeMB = env.inputSizeMB →
      (∀ k, k ≤ j → env2.invoke k = env.invoke k) →
      compress_to_target_size env2 input_file output_file target configs ma =
        Except.ok
          { success := true,
            initial_size_mb := env.inputSizeMB,
            final_size_mb := sz,
            reduction_percent := ((env.inputSizeMB - sz) / env.inputSizeMB) * 100,
            output_path := some output_file,
            config_used := some (((laddersOf configs).take ma).get ⟨j, hj⟩),
            target_reached := true } := by
    intro env2 h1 h2 h3
    have hs2 : env2.invoke (0 + j) = some sz := by
      simpa using (h3 j (le_refl j)).trans hs
    have hbefore2 : ∀ k, k < j → ∀ s, env2.invoke (0 + k) = some s → ¬ s ≤ target := by
      intro k hk s hsk
      refine hbefore k hk s ?_
      rw [← h3 k (le_of_lt hk)]
      simpa using hsk
    simp only [compress_to_target_size, h1, Bool.not_true, Bool.false_eq_true, if_false, h2]
    exact loop_early_stop env2 output_file target env.inputSizeMB _ 0 j sz none none hj
      hinit hs2 hle hbefore2
  refine ⟨key env hin rfl (fun _ _ => rfl), ?_⟩
  intro env' h1 h2 h3
  rw [key env' h1 h2 h3, key env hin rfl (fun _ _ => rfl)]

theorem compress_early_stop_first_qualifying_witness :
    compress_to_target_size ladder9742Env "in.pdf" "out.pdf" 5 [] 11 =
      Except.ok
        { success := true,
          initial_size_mb := 20,
          final_size_mb := 4,
          reduction_percent := 80,
          output_path := some "out.pdf",
          config_used := some (96, 60, "Medium quality"),
          target_reached := true } := by
  have h := (compress_early_stop_first_qualifying ladder9742Env "in.pdf" "out.pdf" 5 [] 11 2 4
    rfl (by norm_num [ladder9742Env]) (by simp [laddersOf, defaultConfigs])
    (by norm_num [ladder9742Env]) (by norm_num)
    (by intro k hk s hs
        interval_cases k <;> simp [ladder9742Env] at hs <;> rw [← hs] <;> norm_num)).1
  rw [h]
  norm_num [ladder9742Env, laddersOf, defaultConfigs]

/-- C2 (code bug): the specification requires the reduction-percentage
computation to be guarded against a zero initial size on every return
path, but the early-stop return of compress_to_target_size (line 225 of
pdf_compressor.py) divides by initial_size without the guard that the
exhaustion path (line 236) has: on an existing 0-byte input whose first
successful attempt meets the target, the call raises ZeroDivisionError
instead of returning a result with reduction_percent = 0. -/
theorem compress_zero_initial_early_stop_raises :
    compress_to_target_size zeroInitialEnv "empty.pdf" "out.pdf" (1 / 2) [] 11 =
      Except.error "ZeroDivisionError" := by
  simp [compress_to_target_size, compressLoop, laddersOf, defaultConfigs, zeroInitialEnv, pyDiv]

/-- C3: when the loop over the first min(len(ladder), max_attempts) entries
finishes without early-stop (every successful attempt measures above the
target) and no stale file sits at the output path, then: if some attempt
succeeded, the result reports success = true, final_size_mb equal to the
last successful attempt measured size, target_reached = false, and
config_used equal to that most recent successful non-qualifying entry;
if every invocation failed, the result reports success = false with the
"Failed to compress PDF" error. -/
theorem compress_exhaustion_fallback
    (env : CompressEnv) (input_file output_file : String) (target : ℚ)
    (configs : List Entry) (ma : Nat)
    (hin : env.inputExists = true)
    (hpre : env.outputPreexists = false)
    (hnoearly : ∀ k, k < ((laddersOf configs).take ma).length →
        ∀ s, env.invoke k = some s → target < s) :
    (∀ j sz (hj : j < ((laddersOf configs).take ma).length),
        env.invoke j = some sz →
        (∀ k, j < k → k < ((laddersOf configs).take ma).length → env.invoke k = none) →
        compress_to_target_size env input_file output_file target configs ma =
          Except.ok
            { success := true,
              initial_size_mb := env.inputSizeMB,
              final_size_mb := sz,
              reduction_percent :=
                if env.inputSizeMB > 0 then
                  ((env.inputSizeMB - sz) / env.inputSizeMB) * 100 else 0,
              output_path := some output_file,
              config_used := some (((laddersOf configs).take ma).get ⟨j, hj⟩),
              target_reached := false })
    ∧ ((∀ k, k < ((laddersOf configs).take ma).length → env.invoke k = none) →
        compress_to_target_size env input_file output_file target configs ma =
          Except.ok
            { success := false,
              initial_size_mb := env.inputSizeMB,
              final_size_mb := 0,
              reduction_percent := 0,
              error := some "Failed to compress PDF" }) := by
  have hne : ∀ k, k < ((laddersOf configs).take ma).length →
      ∀ s, env.invoke (0 + k) = some s → ¬ s ≤ target := by
    intro k hk s hsk
    exact not_le.mpr (hnoearly k hk s (by simpa using hsk))
  constructor
  · intro j sz hj hsj hafter
    have hafter0 : ∀ k, j < k → k < ((laddersOf configs).take ma).length →
        env.invoke (0 + k) = none := by
      intro k h1 h2; simpa using hafter k h1 h2
    simp only [compress_to_target_size, hin, Bool.not_true, Bool.false_eq_true, if_false]
    rw [loop_eq_final_of_no_early env output_file target env.inputSizeMB _ 0 none none hne,
      walk_last env _ 0 j sz none none hj (by simpa using hsj) hafter0]
    have hnr : ¬ sz ≤ target := not_le.mpr (hnoearly j hj sz hsj)
    simp [finalResult, hpre, hnr]
  · intro hall
    simp only [compress_to_target_size, hin, Bool.not_true, Bool.false_eq_true, if_false]
    rw [loop_eq_final_of_no_early env output_file target env.inputSizeMB _ 0 none none hne,
      walk_all_none env _ 0 none none (by intro k hk; simpa using hall k hk)]
    simp [finalResult, hpre]

theorem compress_exhaustion_fallback_witness :
    compress_to_target_size stuck10Env "in.pdf" "out.pdf" 5 [(150, 80, "a"), (72, 50, "b")] 11 =
      Except.ok
        { success := true,
          initial_size_mb := 20,
          final_size_mb := 10,
          reduction_percent := 50,
          output_path := some "out.pdf",
          config_used := some (72, 50, "b"),
          target_reached := false } := by
  have h := (compress_exhaustion_fallback stuck10Env "in.pdf" "out.pdf" 5
      [(150, 80, "a"), (72, 50, "b")] 11 rfl rfl
      (by intro k hk s hs; simp [stuck10Env] at hs; rw [← hs]; norm_num)).1
    1 10 (by simp [laddersOf]) rfl
    (by intro k h1 h2; simp [laddersOf] at h2; omega)
  rw [h]
  norm_num [stuck10Env, laddersOf]

/-- C5: a single failed compressor invocation never aborts the search; on
a fresh output path, a run that returns a result returns a failure result
exactly when no invocation succeeded at all (so any successful attempt,
anywhere in the walked ladder, yields a success result). -/
theorem compress_failure_iff_no_success
    (env : CompressEnv) (input_file output_file : String) (target : ℚ)
    (configs : List Entry) (ma : Nat) (r : CompressionResult)
    (hin : env.inputExists = true)
    (hpre : env.outputPreexists = false)
    (hr : compress_to_target_size env input_file output_file target configs ma = Except.ok r) :
    r.success = false ↔
      ∀ k, k < ((laddersOf configs).take ma).length → env.invoke k = none := by
  have hloop : compressLoop env output_file target env.inputSizeMB
      ((laddersOf configs).take ma) 0 none none = Except.ok r := by
    rw [← hr]
    simp [compress_to_target_size, hin]
  constructor
  · intro hfail k hk
    cases hki : env.invoke k with
    | none => rfl
    | some s =>
      have hsucc := loop_success_of_invoke_some env output_file target env.inputSizeMB
        _ 0 k s none none r hk (by simpa using hki) hloop
      rw [hsucc] at hfail
      exact absurd hfail (by simp)
  · intro hall
    have hne : ∀ k, k < ((laddersOf configs).take ma).length →
        ∀ s, env.invoke (0 + k) = some s → ¬ s ≤ target := by
      intro k hk s hsk
      rw [show 0 + k = k by omega, hall k hk] at hsk
      exact absurd hsk (by simp)
    rw [loop_eq_final_of_no_early env output_file target env.inputSizeMB _ 0 none none hne,
      walk_all_none env _ 0 none none (by intro k hk; simpa using hall k hk)] at hloop
    simp only [finalResult, hpre, Option.isSome_none, Bool.or_false, Bool.false_eq_true,
      if_false, Except.ok.injEq] at hloop
    rw [← hloop]

theorem compress_failure_iff_no_success_witness :
    ((⟨false, 20, 0, 0, none, none, false, some "Failed to compress PDF"⟩ :
        CompressionResult).success = false ↔
      ∀ k, k < ((laddersOf []).take 3).length → allFailEnv.invoke k = none) :=
  compress_failure_iff_no_success allFailEnv "in.pdf" "out.pdf" 5 [] 3 _ rfl rfl
    (by simp [compress_to_target_size, compressLoop, laddersOf, defaultConfigs, allFailEnv,
      finalResult])

/-- C9: when the input file does not exist, compress_to_target_size fails
immediately, returning success = false, initial_size_mb = 0,
final_size_mb = 0, reduction_percent = 0 and an error naming the missing
input; the result is the same for every invoker, ladder and attempt
bound, so no ladder entry is attempted. -/
theorem compress_missing_input
    (env : CompressEnv) (input_file output_file : String) (target : ℚ)
    (configs : List Entry) (ma : Nat)
    (hin : env.inputExists = false) :
    compress_to_target_size env input_file output_file target configs ma =
      Except.ok
        { success := false,
          initial_size_mb := 0,
          final_size_mb := 0,
          reduction_percent := 0,
          error := some ("Input file not found: " ++ input_file) } := by
  simp [compress_to_target_size, hin]

theorem compress_missing_input_witness :
    compress_to_target_size missingInputEnv "absent.pdf" "out.pdf" 5 [] 11 =
      Except.ok
        { success := false,
          initial_size_mb := 0,
          final_size_mb := 0,
          reduction_percent := 0,
          error := some ("Input file not found: " ++ "absent.pdf") } :=
  compress_missing_input missingInputEnv "absent.pdf" "out.pdf" 5 [] 11 rfl

/-! ## Lemmas and claim theorems for the job store -/

theorem lookup_replace_self (jobs : JobStore) (a : String) (v w : JobInfo)
    (h : jobs.lookup a = some v) :
    (jobs.map (fun p => if p.1 = a then (p.1, w) else p)).lookup a = some w := by
  induction jobs with
  | nil => simp at h
  | cons q rest ih =>
    obtain ⟨k, x⟩ := q
    by_cases hq : k = a
    · subst hq
      simp [List.lookup_cons]
    · have hne : (a == k) = false := beq_false_of_ne (Ne.symm hq)
      simp only [List.lookup_cons, hne] at h
      simp only [List.map_cons, if_neg hq]
      simp only [List.lookup_cons, hne]
      exact ih h

theorem lookup_replace_other (jobs : JobStore) (a b : String) (w : JobInfo)
    (hab : b ≠ a) :
    (jobs.map (fun p => if p.1 = a then (p.1, w) else p)).lookup b = jobs.lookup b := by
  induction jobs with
  | nil => simp
  | cons q rest ih =>
    obtain ⟨k, x⟩ := q
    by_cases hq : k = a
    · subst hq
      have hne : (b == k) = false := beq_false_of_ne hab
      simp only [List.map_cons, List.lookup_cons, hne, if_true, eq_self_iff_true]
      exact ih
    · simp only [List.map_cons, if_neg hq, List.lookup_cons]
      cases hbk : b == k with
      | true => rfl
      | false => exact ih

/-- C7: update_job on an existing id assigns exactly the provided fields
and leaves every omitted field and every other job unchanged, returning
the updated record; on an unknown id it changes nothing and returns
none. -/
theorem update_job_exact_fields
    (jobs : JobStore) (job_id : String) (status : Option String) (progress : Option Int)
    (message : Option String) (output_file : Option String) :
    (jobs.lookup job_id = none →
      update_job jobs job_id status progress message output_file = (jobs, none)) ∧
    (∀ job, jobs.lookup job_id = some job →
      (update_job jobs job_id status progress message output_file).2 =
        some (applyUpdate job status progress message output_file) ∧
      (applyUpdate job status progress message output_file).status = status.getD job.status ∧
      (applyUpdate job status progress message output_file).progress =
        progress.getD job.progress ∧
      (applyUpdate job status progress message output_file).message = message.getD job.message ∧
      (output_file = none →
        (applyUpdate job status progress message output_file).output_file = job.output_file) ∧
      (∀ o, output_file = some o →
        (applyUpdate job status progress message output_file).output_file = some o) ∧
      (applyUpdate job status progress message output_file).job_id = job.job_id ∧
      (applyUpdate job status progress message output_file).created_at = job.created_at ∧
      (applyUpdate job status progress message output_file).temp_dir = job.temp_dir ∧
      (applyUpdate job status progress message output_file).original_filename =
        job.original_filename ∧
      (update_job jobs job_id status progress message output_file).1.lookup job_id =
        some (applyUpdate job status progress message output_file) ∧
      ∀ k, k ≠ job_id →
        (update_job jobs job_id status progress message output_file).1.lookup k =
          jobs.lookup k) := by
  constructor
  · intro h
    simp [update_job, h]
  · intro job hj
    have hstore : (update_job jobs job_id status progress message output_file).1 =
        jobs.map (fun p =>
          if p.1 = job_id then (p.1, applyUpdate job status progress message output_file)
          else p) := by
      simp [update_job, hj]
    refine ⟨by simp [update_job, hj], rfl, rfl, rfl, ?_, ?_, rfl, rfl, rfl, rfl, ?_, ?_⟩
    · intro h0
      simp [applyUpdate, h0]
    · intro o ho
      simp [applyUpdate, ho]
    · rw [hstore]
      exact lookup_replace_self jobs job_id job _ hj
    · intro k hk
      rw [hstore]
      exact lookup_replace_other jobs job_id k _ hk

theorem update_job_exact_fields_witness :
    (update_job [("j", seedJob)] "j" (some "processing") none (some "halfway") none).2 =
      some
        { job_id := "j", created_at := 0, temp_dir := "/tmp/j",
          status := "processing", progress := 0, message := "halfway" } ∧
    (update_job [("j", seedJob)] "j" (some "processing") none (some "halfway") none).1.lookup
        "other" = List.lookup "other" [("j", seedJob)] := by
  have h := (update_job_exact_fields [("j", seedJob)] "j" (some "processing") none
    (some "halfway") none).2 seedJob (by simp [List.lookup_cons])
  refine ⟨?_, h.2.2.2.2.2.2.2.2.2.2.2 "other" (by simp)⟩
  rw [h.1]
  simp [applyUpdate, seedJob]

/-- C4 (counterexample): update_job enforces no transition discipline: a
single call moves a completed job back to pending, and another lowers the
progress of a processing job from 50 to 10 while it stays processing,
contradicting the claimed forward-monotonic status and non-decreasing
progress invariant. -/
theorem update_job_allows_regression :
    ((update_job [("c", completedJob)] "c" (some "pending") none none none).2).map
        JobInfo.status = some "pending" ∧
    completedJob.status = "completed" ∧
    ((update_job [("p", processingJob)] "p" none (some 10) none none).2).map
        JobInfo.progress = some 10 ∧
    ((update_job [("p", processingJob)] "p" none (some 10) none none).2).map
        JobInfo.status = some "processing" ∧
    processingJob.progress = 50 := by
  refine ⟨?_, rfl, ?_, ?_, rfl⟩ <;>
    simp [update_job, applyUpdate, completedJob, processingJob, List.lookup_cons]

theorem stepAllowed_refl (a : String) : stepAllowed a a := Or.inl rfl

theorem stepAllowed_trans (a b c : String) (h1 : stepAllowed a b) (h2 : stepAllowed b c) :
    stepAllowed a c := by
  rcases h1 with h1 | h1 | ⟨h1, h1'⟩ | ⟨h1, h1'⟩
  · rwa [h1]
  · subst h1
    rcases h2 with h2 | h2 | ⟨h2, h2'⟩ | ⟨h2, h2'⟩
    · rw [← h2]; exact Or.inr (Or.inl rfl)
    · exact Or.inr (Or.inl h2)
    · exact absurd h2 (by decide)
    · exact absurd h2 (by decide)
  · subst h1
    rcases h1' with h1' | h1'
    · subst h1'
      rcases h2 with h2 | h2 | ⟨h2, h2'⟩ | ⟨h2, h2'⟩
      · rw [← h2]; exact Or.inr (Or.inr (Or.inl ⟨rfl, Or.inl rfl⟩))
      · exact Or.inr (Or.inl h2)
      · exact absurd h2 (by decide)
      · exact Or.inr (Or.inr (Or.inl ⟨rfl, Or.inr h2'⟩))
    · subst h1'
      rcases h2 with h2 | h2 | ⟨h2, h2'⟩ | ⟨h2, h2'⟩
      · rw [← h2]; exact Or.inr (Or.inr (Or.inl ⟨rfl, Or.inr rfl⟩))
      · exact Or.inr (Or.inl h2)
      · exact absurd h2 (by decide)
      · exact absurd h2 (by decide)
  · subst h1'
    rcases h2 with h2 | h2 | ⟨h2, h2'⟩ | ⟨h2, h2'⟩
    · rw [← h2]; exact Or.inr (Or.inr (Or.inr ⟨h1, rfl⟩))
    · exact Or.inr (Or.inl h2)
    · exact absurd h2 (by decide)
    · exact absurd h2 (by decide)

theorem stepAllowed_from_processing (b : String) (h : stepAllowed "processing" b) :
    b = "processing" ∨ b = "completed" ∨ b = "failed" := by
  rcases h with h | h | ⟨h, h'⟩ | ⟨h, h'⟩
  · exact Or.inl h.symm
  · exact Or.inr (Or.inr h)
  · exact absurd h (by decide)
  · exact Or.inr (Or.inl h')

theorem stepAllowed_to_processing_of_from_processing (b : String)
    (h1 : stepAllowed "processing" b) (h2 : stepAllowed b "processing") :
    b = "processing" := by
  rcases stepAllowed_from_processing b h1 with h | h | h
  · exact h
  · subst h
    rcases h2 with h2 | h2 | ⟨h2, h2'⟩ | ⟨h2, h2'⟩ <;> exact absurd h2 (by decide)
  · subst h
    rcases h2 with h2 | h2 | ⟨h2, h2'⟩ | ⟨h2, h2'⟩ <;> exact absurd h2 (by decide)

theorem update_lookup_other_id (jobs : JobStore) (u : UpdateArgs) (job_id : String)
    (hne : u.job_id ≠ job_id) :
    (update_job jobs u.job_id u.status u.progress u.message u.output_file).1.lookup job_id =
      jobs.lookup job_id := by
  cases hl : jobs.lookup u.job_id with
  | none => simp [update_job, hl]
  | some j0 =>
    simp only [update_job, hl]
    exact lookup_replace_other jobs u.job_id job_id _ (Ne.symm hne)

/-- C4 (amended): update_job itself performs last-writer-wins field
replacement and does not enforce the invariant, but for every disciplined
sequence of update_job calls — each call supplying only an allowed next
status and, while the job stays processing, a non-decreasing progress —
every job moves only forward through pending, processing, completed with
failure terminal, and its progress never decreases while it is
processing. -/
theorem update_job_invariant_for_disciplined_callers
    (us : List UpdateArgs) (jobs : JobStore) (job_id : String) (job job' : JobInfo)
    (hd : disciplined jobs us)
    (h0 : jobs.lookup job_id = some job)
    (h1 : (applyUpdates jobs us).lookup job_id = some job') :
    stepAllowed job.status job'.status ∧
    (job.status = "processing" → job'.status = "processing" →
      job.progress ≤ job'.progress) := by
  induction us generalizing jobs job with
  | nil =>
    simp only [applyUpdates] at h1
    rw [h0] at h1
    injection h1 with h
    subst h
    exact ⟨stepAllowed_refl _, fun _ _ => le_refl _⟩
  | cons u us ih =>
    obtain ⟨hu, hd'⟩ := hd
    simp only [applyUpdates] at h1
    by_cases hid : u.job_id = job_id
    · subst hid
      have hcond := hu job h0
      have hstore2 : (update_job jobs u.job_id u.status u.progress u.message
          u.output_file).1.lookup u.job_id =
          some (applyUpdate job u.status u.progress u.message u.output_file) := by
        simp only [update_job, h0]
        exact lookup_replace_self jobs u.job_id job _ h0
      have IH := ih (update_job jobs u.job_id u.status u.progress u.message u.output_file).1
        (applyUpdate job u.status u.progress u.message u.output_file) hd' hstore2 h1
      have hstep : stepAllowed job.status
          (applyUpdate job u.status u.progress u.message u.output_file).status := by
        cases hst : u.status with
        | none =>
          have he : (applyUpdate job none u.progress u.message u.output_file).status =
              job.status := by simp [applyUpdate]
          rw [he]
          exact stepAllowed_refl _
        | some s =>
          have he : (applyUpdate job (some s) u.progress u.message u.output_file).status =
              s := by simp [applyUpdate]
          rw [he]
          exact hcond.1 s hst
      refine ⟨stepAllowed_trans _ _ _ hstep IH.1, ?_⟩
      intro hp hp'
      have hj2p : (applyUpdate job u.status u.progress u.message u.output_file).status =
          "processing" := by
        rw [hp] at hstep
        have h2 := IH.1
        rw [hp'] at h2
        exact stepAllowed_to_processing_of_from_processing _ hstep h2
      have hprog2 : job.progress ≤
          (applyUpdate job u.status u.progress u.message u.output_file).progress := by
        cases hpr : u.progress with
        | none => simp [applyUpdate, hpr]
        | some p =>
          have hgd : u.status.getD job.status = "processing" := by
            have he : (applyUpdate job u.status u.progress u.message u.output_file).status =
                u.status.getD job.status := by simp [applyUpdate]
            rw [← he]
            exact hj2p
          have hle := hcond.2 p hpr hp hgd
          simpa [applyUpdate, hpr] using hle
      exact le_trans hprog2 (IH.2 hj2p hp')
    · have hkeep := update_lookup_other_id jobs u job_id hid
      exact ih (update_job jobs u.job_id u.status u.progress u.message u.output_file).1 job
        hd' (by rw [hkeep]; exact h0) h1

theorem update_job_invariant_for_disciplined_callers_witness :
    stepAllowed pendingJob.status demoFinalJob.status ∧
    (pendingJob.status = "processing" → demoFinalJob.status = "processing" →
      pendingJob.progress ≤ demoFinalJob.progress) :=
  update_job_invariant_for_disciplined_callers demoUpdates [("w", pendingJob)] "w"
    pendingJob demoFinalJob
    (by simp [demoUpdates, disciplined, update_job, applyUpdate, stepAllowed, pendingJob,
      List.lookup_cons])
    (by simp [List.lookup_cons])
    (by simp [demoUpdates, applyUpdates, update_job, applyUpdate, pendingJob, demoFinalJob,
      List.lookup_cons])

theorem foldl_cleanup_job (L : List String) (jobs : JobStore) :
    L.foldl cleanup_job jobs = jobs.filter (fun p => !(L.contains p.1)) := by
  induction L generalizing jobs with
  | nil => simp
  | cons a L ih =>
    rw [List.foldl_cons, ih]
    show (cleanup_job jobs a).filter _ = _
    rw [cleanup_job, List.filter_filter]
    apply List.filter_congr
    intro p _
    simp only [List.contains_cons, Bool.not_or]
    rw [Bool.and_comm]

theorem eq_of_mem_keys_nodup (jobs : JobStore) (p q : String × JobInfo)
    (hnd : (jobs.map Prod.fst).Nodup) (hp : p ∈ jobs) (hq : q ∈ jobs) (hk : p.1 = q.1) :
    p = q := by
  induction jobs with
  | nil => simp at hp
  | cons r rest ih =>
    simp only [List.map_cons, List.nodup_cons] at hnd
    rcases List.mem_cons.mp hp with hp1 | hp1 <;> rcases List.mem_cons.mp hq with hq1 | hq1
    · rw [hp1, hq1]
    · exfalso
      apply hnd.1
      subst hp1
      exact List.mem_map.mpr ⟨q, hq1, hk.symm⟩
    · exfalso
      apply hnd.1
      subst hq1
      exact List.mem_map.mpr ⟨p, hp1, hk⟩
    · exact ih hnd.2 hp1 hq1

theorem contains_clean_ids (jobs : JobStore) (oldP : String × JobInfo → Bool)
    (p : String × JobInfo)
    (hnd : (jobs.map Prod.fst).Nodup) (hp : p ∈ jobs) :
    ((jobs.filter oldP).map Prod.fst).contains p.1 = oldP p := by
  cases hop : oldP p with
  | true =>
    have : p.1 ∈ (jobs.filter oldP).map Prod.fst :=
      List.mem_map.mpr ⟨p, List.mem_filter.mpr ⟨hp, hop⟩, rfl⟩
    exact List.contains_iff_exists_mem_beq.mpr ⟨p.1, this, by simp⟩
  | false =>
    rw [Bool.eq_false_iff]
    intro hc
    rcases List.contains_iff_exists_mem_beq.mp hc with ⟨k, hk, hbeq⟩
    rcases List.mem_map.mp hk with ⟨q, hq, hk1⟩
    have hqf := List.mem_filter.mp hq
    have : p = q := eq_of_mem_keys_nodup jobs p q hnd hp hqf.1 (by
      rw [hk1]; exact eq_of_beq hbeq)
    rw [this, hqf.2] at hop
    exact absurd hop (by simp)

/-- C6: with cleanup enabled and distinct job ids, cleanup_old_jobs keeps
exactly the jobs created at or after now minus the maximum age — a job
created exactly at the cutoff is retained — evicts exactly the strictly
older ones, and returns the number evicted. -/
theorem cleanup_old_jobs_evicts_strictly_older
    (enabled : Bool) (now max_age : ℚ) (jobs : JobStore)
    (hen : enabled = true)
    (hnd : (jobs.map Prod.fst).Nodup) :
    (cleanup_old_jobs enabled now max_age jobs).1 =
      jobs.filter (fun p => decide (now - max_age ≤ p.2.created_at)) ∧
    (cleanup_old_jobs enabled now max_age jobs).2 =
      (jobs.filter (fun p => decide (p.2.created_at < now - max_age))).length ∧
    (∀ p ∈ jobs, p.2.created_at < now - max_age →
      p ∉ (cleanup_old_jobs enabled now max_age jobs).1) ∧
    (∀ p ∈ jobs, now - max_age ≤ p.2.created_at →
      p ∈ (cleanup_old_jobs enabled now max_age jobs).1) := by
  subst hen
  have hstore : (cleanup_old_jobs true now max_age jobs).1 =
      jobs.filter (fun p => decide (now - max_age ≤ p.2.created_at)) := by
    simp only [cleanup_old_jobs, Bool.not_true, Bool.false_eq_true, if_false]
    rw [foldl_cleanup_job]
    apply List.filter_congr
    intro p hp
    rw [contains_clean_ids jobs _ p hnd hp, ← decide_not]
    exact decide_eq_decide.mpr not_lt
  refine ⟨hstore, ?_, ?_, ?_⟩
  · simp [cleanup_old_jobs]
  · intro p hp hold hmem
    rw [hstore] at hmem
    have := (List.mem_filter.mp hmem).2
    rw [decide_eq_true_iff] at this
    exact absurd hold (not_lt.mpr this)
  · intro p hp hnew
    rw [hstore]
    exact List.mem_filter.mpr ⟨hp, decide_eq_true hnew⟩

theorem cleanup_old_jobs_evicts_strictly_older_witness :
    (cleanup_old_jobs true 10 10 cleanupDemoStore).1 =
      [ ("a", { job_id := "a", created_at := 0, temp_dir := "/tmp/a" }),
        ("b", { job_id := "b", created_at := 5, temp_dir := "/tmp/b" }) ] ∧
    (cleanup_old_jobs true 10 10 cleanupDemoStore).2 = 1 := by
  have h := cleanup_old_jobs_evicts_strictly_older true 10 10 cleanupDemoStore rfl
    (by simp [cleanupDemoStore])
  refine ⟨?_, ?_⟩
  · rw [h.1]
    norm_num [cleanupDemoStore, List.filter]
  · rw [h.2.1]
    norm_num [cleanupDemoStore, List.filter]

/-! ## Claim theorems for image conversion and filename sanitisation -/

/-- C8 (counterexample): an input list with a missing file followed by a
healthy image does not make convert_images_to_pdf fail naming the missing
item: the missing item is silently filtered out and the call succeeds
with one page and no error, contrary to the claimed boundary contract. -/
theorem convert_skips_missing_input_silently :
    (convert_images_to_pdf 1 [missingItem, goodItem] "out.pdf").1.success = true ∧
    (convert_images_to_pdf 1 [missingItem, goodItem] "out.pdf").1.error = none ∧
    (convert_images_to_pdf 1 [missingItem, goodItem] "out.pdf").1.page_count = 1 ∧
    missingItem.found = false := by
  refine ⟨?_, ?_, ?_, rfl⟩ <;> decide

/-- C8 (amended): missing or unsupported inputs are silently filtered out
and never cause failure; the call succeeds exactly when some valid input
survives and every valid input is convertible by one of the two
strategies, in which case exactly one artifact is written at the output
path with one page per valid input; when both strategies fail for some
valid item the call fails naming such an item by basename and writes no
artifact (and an artifact is written exactly on success). -/
theorem convert_images_error_reporting
    (outSize : ℚ) (image_paths : List ImgItem) (output_pdf : String) :
    ((convert_images_to_pdf outSize image_paths output_pdf).1.success = true ↔
      image_paths.filter validItem ≠ [] ∧
      ∀ p ∈ image_paths.filter validItem, p.fitzOk = true ∨ p.pilOk = true) ∧
    ((convert_images_to_pdf outSize image_paths output_pdf).2 =
      (convert_images_to_pdf outSize image_paths output_pdf).1.success) ∧
    ((convert_images_to_pdf outSize image_paths output_pdf).1.success = true →
      (convert_images_to_pdf outSize image_paths output_pdf).1.output_path = some output_pdf ∧
      (convert_images_to_pdf outSize image_paths output_pdf).1.page_count =
        (image_paths.filter validItem).length) ∧
    ((∃ p ∈ image_paths.filter validItem, p.fitzOk = false ∧ p.pilOk = false) →
      ∃ p ∈ image_paths.filter validItem, p.fitzOk = false ∧ p.pilOk = false ∧
        (convert_images_to_pdf outSize image_paths output_pdf).1.error =
          some ("Failed to process image: " ++ basename p.path)) := by
  by_cases hempty : image_paths.isEmpty
  · have hfe : image_paths.filter validItem = [] := by
      rw [List.isEmpty_iff] at hempty
      simp [hempty]
    simp [convert_images_to_pdf, hempty, hfe]
  · by_cases hve : (image_paths.filter validItem).isEmpty
    · have hfe : image_paths.filter validItem = [] := List.isEmpty_iff.mp hve
      simp [convert_images_to_pdf, hempty, hve, hfe]
    · cases hfind : (image_paths.filter validItem).find? (fun p => !p.fitzOk && !p.pilOk) with
      | some p =>
        have hp := List.find?_some hfind
        have hpm := List.mem_of_find?_eq_some hfind
        simp only [Bool.and_eq_true, Bool.not_eq_true'] at hp
        have hres : convert_images_to_pdf outSize image_paths output_pdf =
            ({ success := false,
               error := some ("Failed to process image: " ++ basename p.path) }, false) := by
          simp [convert_images_to_pdf, hempty, hve, hfind]
        rw [hres]
        refine ⟨?_, rfl, by simp, ?_⟩
        · simp only [Bool.false_eq_true, false_iff, not_and, not_forall]
          intro _
          exact ⟨p, hpm, by simp [hp.1, hp.2]⟩
        · intro _
          exact ⟨p, hpm, hp.1, hp.2, rfl⟩
      | none =>
        have hall := List.find?_eq_none.mp hfind
        have hres : convert_images_to_pdf outSize image_paths output_pdf =
            ({ success := true, page_count := (image_paths.filter validItem).length,
               output_path := some output_pdf, size_mb := outSize }, true) := by
          simp [convert_images_to_pdf, hempty, hve, hfind]
        rw [hres]
        refine ⟨?_, rfl, by simp, ?_⟩
        · simp only [true_iff]
          refine ⟨fun h => hve (by simp [h]), ?_⟩
          intro p hp
          have := hall p hp
          simp only [Bool.and_eq_true, Bool.not_eq_true', not_and] at this
          rcases Bool.eq_false_or_eq_true p.fitzOk with hf | hf
          · exact Or.inl hf
          · exact Or.inr (by simpa using this hf)
        · intro ⟨p, hp, hf, hpl⟩
          have := hall p hp
          simp [hf, hpl] at this

theorem convert_images_error_reporting_witness :
    (convert_images_to_pdf 1 [goodItem] "out.pdf").1.output_path = some "out.pdf" ∧
    (convert_images_to_pdf 1 [goodItem] "out.pdf").1.page_count =
      ([goodItem].filter validItem).length :=
  (convert_images_error_reporting 1 [goodItem] "out.pdf").2.2.1 (by decide)

theorem mem_of_mem_stripEnds (l : List Char) (c : Char) (h : c ∈ stripEnds l) : c ∈ l := by
  unfold stripEnds at h
  rw [List.mem_reverse] at h
  have h2 := List.dropWhile_subset Char.isWhitespace h
  rw [List.mem_reverse] at h2
  exact List.dropWhile_subset Char.isWhitespace h2

theorem mem_of_mem_dropLeadingDots (l : List Char) (c : Char)
    (h : c ∈ dropLeadingDots l) : c ∈ l := by
  induction l with
  | nil => simp [dropLeadingDots] at h
  | cons a rest ih =>
    by_cases ha : a = '.'
    · subst ha
      rw [show dropLeadingDots ('.' :: rest) = dropLeadingDots rest from rfl] at h
      exact List.mem_cons_of_mem _ (ih h)
    · have : dropLeadingDots (a :: rest) = a :: rest := by
        unfold dropLeadingDots
        split
        · next rest1 heq =>
          injection heq with h1 h2
          exact absurd h1 ha
        · rfl
      rw [this] at h
      exact h

/-- C10: for every input and any host isalnum predicate that rejects the
dot and accepts the letters of "output", sanitize_filename returns a
non-empty string whose characters are all alphanumeric, space, dash or
underscore, never a path separator, null byte or dot, and returns the
literal "output" whenever no character of the input survives the keep
filter. -/
theorem sanitize_filename_safe (alnum : Char → Bool) (filename : List Char)
    (h4 : alnum '.' = false)
    (h5 : ∀ c ∈ "output".toList, alnum c = true) :
    sanitize_filename alnum filename ≠ [] ∧
    (∀ c ∈ sanitize_filename alnum filename,
      alnum c = true ∨ c = ' ' ∨ c = '-' ∨ c = '_') ∧
    (∀ c ∈ sanitize_filename alnum filename,
      c ≠ '/' ∧ c ≠ '\\' ∧ c ≠ Char.ofNat 0 ∧ c ≠ '.') ∧
    ((∀ c ∈ filename, keepChar alnum c = false) →
      sanitize_filename alnum filename = "output".toList) := by
  by_cases he : (stripEnds ((dropLeadingDots (((filename.filter (fun c => !(c == '/'))).filter
      (fun c => !(c == '\\'))).filter (fun c => !(c == Char.ofNat 0)))).filter
      (keepChar alnum))).isEmpty
  · have hr : sanitize_filename alnum filename = "output".toList := by
      simp only [sanitize_filename]
      rw [if_pos he]
    rw [hr]
    refine ⟨by decide, ?_, by decide, fun _ => rfl⟩
    intro c hc
    exact Or.inl (h5 c hc)
  · have hr : sanitize_filename alnum filename =
        stripEnds ((dropLeadingDots (((filename.filter (fun c => !(c == '/'))).filter
          (fun c => !(c == '\\'))).filter (fun c => !(c == Char.ofNat 0)))).filter
          (keepChar alnum)) := by
      simp only [sanitize_filename]
      rw [if_neg he]
    rw [hr]
    have hmem : ∀ c ∈ stripEnds ((dropLeadingDots (((filename.filter (fun c => !(c == '/'))).filter
        (fun c => !(c == '\\'))).filter (fun c => !(c == Char.ofNat 0)))).filter
        (keepChar alnum)), keepChar alnum c = true := by
      intro c hc
      exact (List.mem_filter.mp (mem_of_mem_stripEnds _ c hc)).2
    have hsep : ∀ c ∈ stripEnds ((dropLeadingDots (((filename.filter (fun c => !(c == '/'))).filter
        (fun c => !(c == '\\'))).filter (fun c => !(c == Char.ofNat 0)))).filter
        (keepChar alnum)),
        (!(c == '/')) = true ∧ (!(c == '\\')) = true ∧ (!(c == Char.ofNat 0)) = true := by
      intro c hc
      have h0 := mem_of_mem_dropLeadingDots _ c
        (List.mem_filter.mp (mem_of_mem_stripEnds _ c hc)).1
      have ha := List.mem_filter.mp h0
      have hb := List.mem_filter.mp ha.1
      exact ⟨(List.mem_filter.mp hb.1).2, hb.2, ha.2⟩
    refine ⟨?_, ?_, ?_, ?_⟩
    · intro hnil
      exact he (by rw [hnil]; rfl)
    · intro c hc
      have hk := hmem c hc
      simp only [keepChar, Bool.or_eq_true, beq_iff_eq] at hk
      rcases hk with ((hk | hk) | hk) | hk
      · exact Or.inl hk
      · exact Or.inr (Or.inl hk)
      · exact Or.inr (Or.inr (Or.inl hk))
      · exact Or.inr (Or.inr (Or.inr hk))
    · intro c hc
      have hk := hmem c hc
      have hs := hsep c hc
      refine ⟨?_, ?_, ?_, ?_⟩
      · intro hcc
        subst hcc
        simp at hs
      · intro hcc
        subst hcc
        rcases hs with ⟨_, hs2, _⟩
        simp at hs2
      · intro hcc
        subst hcc
        rcases hs with ⟨_, _, hs3⟩
        simp at hs3
      · intro hcc
        subst hcc
        rw [keepChar, h4] at hk
        simp at hk
    · intro hall
      exfalso
      apply he
      have hfe : (dropLeadingDots (((filename.filter (fun c => !(c == '/'))).filter
          (fun c => !(c == '\\'))).filter (fun c => !(c == Char.ofNat 0)))).filter
          (keepChar alnum) = [] := by
        rw [List.filter_eq_nil_iff]
        intro c hc
        have hcf : c ∈ filename := by
          have h0 := mem_of_mem_dropLeadingDots _ c hc
          have ha := List.mem_filter.mp h0
          have hb := List.mem_filter.mp ha.1
          exact (List.mem_filter.mp hb.1).1
        simp [hall c hcf]
      rw [hfe]
      rfl

theorem sanitize_filename_safe_witness :
    sanitize_filename Char.isAlphanum "..".toList = "output".toList :=
  (sanitize_filename_safe Char.isAlphanum "..".toList (by decide) (by decide)).2.2.2
    (by decide)

end PdfComprs
